import Mathlib

/-!
# Verification of the lsql `dashboards` module

A shallow embedding of `src/databricks/labs/lsql/dashboards.py`.  The
`databricks.labs.lsql.lakeview` data model that it imports, and the remote
workspace service it talks to, are part of the repository respectively
external collaborators and are not among the given sources; those are
modelled from the specification and are marked as such in their doc comments.
-/

deriving instance DecidableEq for Except

namespace Lsql

/-- Modelled from the spec: the `databricks.labs.lsql.lakeview` data model that
`dashboards.py` imports is not among the sources.  Fields follow the spec's §3
data model and the constructor calls in `dashboards.py`.  A `Field` names one
projected expression of a query. -/
structure Field where
  name : String
  expression : String
deriving DecidableEq, Repr

/-- Modelled from the spec: a `Query` projects a dataset (referenced by name)
into fields. -/
structure Query where
  dataset_name : String
  fields : List Field
  disaggregated : Bool
deriving DecidableEq, Repr

/-- Modelled from the spec: a named query owned by a widget. -/
structure NamedQuery where
  name : String
  query : Query
deriving DecidableEq, Repr

/-- Modelled from the spec: a control encoding referencing a query by name. -/
structure ControlFieldEncoding where
  query_name : String
deriving DecidableEq, Repr

/-- Modelled from the spec: a widget spec.  Its serialized dictionary carries a
`widgetType` tag (`spec.as_dict().get("widgetType", ...)` in the source); the
control encodings are the nested structures holding `query_name` references. -/
structure WidgetSpec where
  widgetType : Option String
  controls : List ControlFieldEncoding
deriving DecidableEq, Repr

/-- Modelled from the spec: a widget with its named queries and spec. -/
structure Widget where
  name : String
  queries : List NamedQuery
  spec : Option WidgetSpec
deriving DecidableEq, Repr

/-- Modelled from the spec: a grid position `(x, y, width, height)`. -/
structure Position where
  x : Nat
  y : Nat
  width : Nat
  height : Nat
deriving DecidableEq, Repr

/-- Modelled from the spec: a (widget, position) pair of a page. -/
structure Layout where
  widget : Widget
  position : Position
deriving DecidableEq, Repr

/-- Modelled from the spec: a named collection of layouts. -/
structure Page where
  name : String
  display_name : Option String
  layout : List Layout
deriving DecidableEq, Repr

/-- Modelled from the spec: a dataset (name, display name, SQL text). -/
structure Dataset where
  name : String
  display_name : Option String
  query : String
deriving DecidableEq, Repr

/-- Modelled from the spec: the root aggregate, datasets plus pages. -/
structure Dashboard where
  datasets : List Dataset
  pages : List Page
deriving DecidableEq, Repr

/-- The ephemeral `better_names` mapping of `_with_better_names` /
`_replace_names`: a Python dict from synthetic name to display name, embedded
as a function map. -/
abbrev NameMap := String → Option String

def NameMap.empty : NameMap := fun _ => none

/-- `better_names[k] = v` (Python dict assignment: overwrites). -/
def NameMap.insert (k v : String) (m : NameMap) : NameMap :=
  fun x => if x = k then some v else m x

/-- `better_names.get(k, k)` (Python dict lookup with the key as default). -/
def NameMap.getD (m : NameMap) (k : String) : String :=
  (m k).getD k

/-- Python's `str.startswith`, embedded over the character lists so that it
evaluates by kernel reduction. -/
def strStartsWith (s p : String) : Bool :=
  p.data.isPrefixOf s.data

/-- Python's `sep.join(parts)`, embedded structurally. -/
def joinWith (sep : String) : List String → String
  | [] => ""
  | [x] => x
  | x :: y :: rest => x ++ sep ++ joinWith sep (y :: rest)

/-! ## `Dashboards._replace_names`

`_replace_names` walks every dataclass instance recursively (nested fields
first, then the node-specific rename), mutating the one shared `better_names`
dict.  The embedding is a typed visitor over the closed set of node kinds, with
the dict threaded as explicit state.  `Field` and `Position` nodes have no
rename branch and no nested dataclass fields, so the walk leaves them
unchanged. -/

def replaceNamesQuery (m : NameMap) (q : Query) : Query × NameMap :=
  ({ q with dataset_name := m.getD q.dataset_name }, m)

/-- The synthesized stable name for a remote-generated named query: the
query's dataset name joined with its field names by underscores
(`"_".join(parts)` over `[query.dataset_name] + [f.name for f in fields]`). -/
def joinedName (q : Query) : String :=
  joinWith "_" (q.dataset_name :: q.fields.map (fun f => f.name))

def replaceNamesNamedQuery (m : NameMap) (nq : NamedQuery) : NamedQuery × NameMap :=
  let p := replaceNamesQuery m nq.query
  if strStartsWith nq.name "dashboards/" then
    let newName := joinedName p.1
    let m2 := p.2.insert nq.name newName
    ({ name := m2.getD nq.name, query := p.1 }, m2)
  else
    ({ name := p.2.getD nq.name, query := p.1 }, p.2)

def replaceNamesCfe (m : NameMap) (c : ControlFieldEncoding) : ControlFieldEncoding × NameMap :=
  ({ query_name := m.getD c.query_name }, m)

/-- Walk over a list field, threading the shared dict left to right. -/
def replaceNamesList (rep : NameMap → α → α × NameMap) (m : NameMap) :
    List α → List α × NameMap
  | [] => ([], m)
  | x :: rest =>
    let p := rep m x
    let q := replaceNamesList rep p.2 rest
    (p.1 :: q.1, q.2)

def replaceNamesSpec (m : NameMap) (s : WidgetSpec) : WidgetSpec × NameMap :=
  let p := replaceNamesList replaceNamesCfe m s.controls
  ({ s with controls := p.1 }, p.2)

def replaceNamesWidget (m : NameMap) (w : Widget) : Widget × NameMap :=
  let p := replaceNamesList replaceNamesNamedQuery m w.queries
  match w.spec with
  | none => ({ w with queries := p.1 }, p.2)
  | some s =>
    let q := replaceNamesSpec p.2 s
    ({ name := q.1.widgetType.getD w.name, queries := p.1, spec := some q.1 }, q.2)

def replaceNamesLayout (m : NameMap) (l : Layout) : Layout × NameMap :=
  let p := replaceNamesWidget m l.widget
  ({ l with widget := p.1 }, p.2)

def replaceNamesPage (m : NameMap) (p : Page) : Page × NameMap :=
  let q := replaceNamesList replaceNamesLayout m p.layout
  ({ p with layout := q.1, name := q.2.getD p.name }, q.2)

def replaceNamesDataset (m : NameMap) (d : Dataset) : Dataset × NameMap :=
  ({ d with name := m.getD d.name }, m)

def replaceNamesDashboard (m : NameMap) (d : Dashboard) : Dashboard × NameMap :=
  let p := replaceNamesList replaceNamesDataset m d.datasets
  let q := replaceNamesList replaceNamesPage p.2 d.pages
  ({ datasets := p.1, pages := q.1 }, q.2)

/-- The initial `better_names` dict of `_with_better_names`: dataset names and
page names mapped to their display names, when present. -/
def initialNames (d : Dashboard) : NameMap :=
  let m1 := d.datasets.foldl
    (fun m ds =>
      match ds.display_name with
      | some dn => m.insert ds.name dn
      | none => m)
    NameMap.empty
  d.pages.foldl
    (fun m p =>
      match p.display_name with
      | some dn => m.insert p.name dn
      | none => m)
    m1

/-- `Dashboards._with_better_names`: build the initial map from declared
display names, then rewrite the whole object graph. -/
def withBetterNames (d : Dashboard) : Dashboard :=
  (replaceNamesDashboard (initialNames d) d).1

/-! ## `Dashboards.create_dashboard`

The folder is embedded as its name plus the `(stem, raw SQL)` pairs of its
`*.sql` files in glob order. -/

/-- The serialized `CounterSpec(CounterEncodingMap(...))` carries
`widgetType = "counter"` and holds no control encodings. -/
def counterSpec : WidgetSpec := { widgetType := some "counter", controls := [] }

def createDashboard (folderName : String) (files : List (String × String)) : Dashboard :=
  { datasets := files.map fun f =>
      ({ name := f.1, display_name := some f.1, query := f.2 } : Dataset),
    pages := [{ name := folderName, display_name := some folderName,
                layout := files.map fun f =>
                  ({ widget :=
                      { name := f.1,
                        queries := [{ name := "main_query",
                                      query := { dataset_name := f.1,
                                                 fields := [{ name := "count",
                                                              expression := "`count`" }],
                                                 disaggregated := true } }],
                        spec := some counterSpec },
                     position := { x := 0, y := 0, width := 1, height := 3 } } : Layout) }] }

/-! ## `Dashboards._format_query`

The external SQL library is a collaborator: it is embedded as a parse oracle
returning either a parse error or the parsed statements (possibly `none`
entries, which the source skips), and a generator rendering one statement. -/

def formatQuery {σ : Type} (parse : String → Except Unit (List (Option σ)))
    (gen : σ → String) (query : String) : String :=
  match parse query with
  | .error _ => query
  | .ok parsed => String.intercalate ";\n" ((parsed.filterMap id).map gen)

/-! ## `Dashboards.deploy_dashboard` -/

/-- The one remote call `deploy_dashboard` makes when its arguments validate:
`lakeview.create` for a display name, `lakeview.update` for a dashboard id,
each with the JSON-serialized dashboard. -/
inductive LakeviewCall where
  | create (display_name : String) (serialized_dashboard : String)
  | update (dashboard_id : String) (serialized_dashboard : String)
deriving DecidableEq, Repr

/-- `deploy_dashboard`: both-or-neither identifier raises
`ValueError("Give either display_name or dashboard_id.")` (the spec's
`InvalidArgumentError`) before any remote call; otherwise exactly one remote
call is made.  Serialization is the external `json.dumps ∘ as_dict`,
abstracted as a parameter. -/
def deployDashboard (serialize : Dashboard → String) (d : Dashboard)
    (display_name dashboard_id : Option String) : Except String LakeviewCall :=
  match display_name, dashboard_id with
  | none, none => .error "Give either display_name or dashboard_id."
  | some _, some _ => .error "Give either display_name or dashboard_id."
  | some dn, none => .ok (.create dn (serialize d))
  | none, some di => .ok (.update di (serialize d))

/-! ## The remote round trip

`deploy_dashboard` posts the serialized dashboard; `get_dashboard` downloads
and re-parses it. -/

/-- Modelled from the spec: the remote workspace service is an external
collaborator; per §4.5 it "injects its own generated identifiers" while the
human-chosen display names survive.  `remoteRoundTrip rho d` is the dashboard
read back after deploying `d`: the remote has reassigned the stored
dataset/page identifiers by `rho` (consistently, so query references follow),
leaving display names and all other content as serialized. -/
def remoteRoundTrip (rho : String → String) (d : Dashboard) : Dashboard :=
  { datasets := d.datasets.map fun ds => { ds with name := rho ds.name },
    pages := d.pages.map fun p =>
      { p with name := rho p.name,
               layout := p.layout.map fun l =>
                 { l with widget :=
                     { l.widget with
                       queries := l.widget.queries.map fun nq =>
                         { nq with query :=
                             { nq.query with dataset_name := rho nq.query.dataset_name } } } } } }

/-! ## Grid overlap -/

/-- Two grid rectangles overlap when they share a cell (half-open extents
intersect on both axes). -/
def overlaps (p q : Position) : Prop :=
  p.x < q.x + q.width ∧ q.x < p.x + p.width ∧ p.y < q.y + q.height ∧ q.y < p.y + p.height

instance (p q : Position) : Decidable (overlaps p q) := by
  unfold overlaps; infer_instance

/-! ## Basic lemmas on the name map -/

@[simp]
theorem NameMap.empty_apply (k : String) : (NameMap.empty : NameMap) k = none := rfl

@[simp]
theorem NameMap.insert_apply_self (m : NameMap) (k v : String) :
    (m.insert k v) k = some v := by
  simp [NameMap.insert]

theorem NameMap.insert_apply_of_ne (m : NameMap) {k v x : String} (h : x ≠ k) :
    (m.insert k v) x = m x := by
  simp [NameMap.insert, h]

@[simp]
theorem NameMap.getD_insert_self (m : NameMap) (k v : String) :
    (m.insert k v).getD k = v := by
  simp [NameMap.getD]

@[simp]
theorem NameMap.getD_empty (k : String) : (NameMap.empty : NameMap).getD k = k := rfl

theorem NameMap.getD_of_eq_none (m : NameMap) {k : String} (h : m k = none) :
    m.getD k = k := by
  simp [NameMap.getD, h]

theorem NameMap.getD_of_eq_some (m : NameMap) {k v : String} (h : m k = some v) :
    m.getD k = v := by
  simp [NameMap.getD, h]

@[simp]
theorem replaceNamesQuery_fst (m : NameMap) (q : Query) :
    (replaceNamesQuery m q).1 = { q with dataset_name := m.getD q.dataset_name } := rfl

@[simp]
theorem replaceNamesQuery_snd (m : NameMap) (q : Query) :
    (replaceNamesQuery m q).2 = m := rfl

theorem replaceNamesNamedQuery_of_synthetic (m : NameMap) (nq : NamedQuery)
    (h : strStartsWith nq.name "dashboards/" = true) :
    replaceNamesNamedQuery m nq =
      ({ name := joinedName (replaceNamesQuery m nq.query).1,
         query := (replaceNamesQuery m nq.query).1 },
       m.insert nq.name (joinedName (replaceNamesQuery m nq.query).1)) := by
  simp [replaceNamesNamedQuery, h]

theorem replaceNamesNamedQuery_of_plain (m : NameMap) (nq : NamedQuery)
    (h : strStartsWith nq.name "dashboards/" = false) :
    replaceNamesNamedQuery m nq =
      ({ name := m.getD nq.name, query := (replaceNamesQuery m nq.query).1 }, m) := by
  simp [replaceNamesNamedQuery, h]

/-! ## Name-map folds and sub-identity maps -/

/-- Insert a list of key/value pairs left to right (Python dict update). -/
def insertPairs (m : NameMap) (L : List (String × String)) : NameMap :=
  L.foldl (fun acc kv => acc.insert kv.1 kv.2) m

theorem insertPairs_append (m : NameMap) (L1 L2 : List (String × String)) :
    insertPairs m (L1 ++ L2) = insertPairs (insertPairs m L1) L2 := by
  simp [insertPairs, List.foldl_append]

theorem insertPairs_apply_notMem (m : NameMap) {k : String} :
    ∀ L : List (String × String), k ∉ L.map Prod.fst → insertPairs m L k = m k := by
  intro L
  induction L generalizing m with
  | nil => intro _; rfl
  | cons kv rest ih =>
    intro hk
    rw [List.map_cons, List.mem_cons] at hk
    push_neg at hk
    rw [insertPairs, List.foldl_cons]
    have := ih (m.insert kv.1 kv.2) hk.2
    rw [insertPairs] at this
    rw [this, NameMap.insert_apply_of_ne _ hk.1]

theorem insertPairs_apply_mem_nodup (m : NameMap) {k v : String} :
    ∀ L : List (String × String), (L.map Prod.fst).Nodup → (k, v) ∈ L →
      insertPairs m L k = some v := by
  intro L
  induction L generalizing m with
  | nil => intro _ h; simp at h
  | cons kv rest ih =>
    intro hN hmem
    obtain ⟨a, b⟩ := kv
    rw [List.map_cons, List.nodup_cons] at hN
    have hstep : insertPairs m ((a, b) :: rest) = insertPairs (m.insert a b) rest := rfl
    rw [hstep]
    rcases List.mem_cons.mp hmem with h | h
    · injection h with h1 h2
      subst h1
      subst h2
      rw [insertPairs_apply_notMem (m.insert k v) rest hN.1, NameMap.insert_apply_self]
    · exact ih (m.insert a b) hN.2 h

/-- A map every entry of which is the identity on its key. -/
def SubId (m : NameMap) : Prop :=
  ∀ k v, m k = some v → v = k

theorem SubId.empty : SubId NameMap.empty := by
  intro k v h
  simp [NameMap.empty] at h

theorem SubId.getD {m : NameMap} (h : SubId m) (k : String) : m.getD k = k := by
  unfold NameMap.getD
  cases hm : m k with
  | none => rfl
  | some v => simpa using h k v hm

theorem SubId.insert {m : NameMap} (h : SubId m) (k : String) :
    SubId (m.insert k k) := by
  intro x v hx
  unfold NameMap.insert at hx
  by_cases hxk : x = k
  · rw [if_pos hxk] at hx
    cases hx
    exact hxk.symm
  · rw [if_neg hxk] at hx
    exact h x v hx

theorem subId_insertPairs {m : NameMap} (h : SubId m) :
    ∀ L : List (String × String), (∀ kv ∈ L, kv.2 = kv.1) → SubId (insertPairs m L) := by
  intro L
  induction L generalizing m with
  | nil => intro _; exact h
  | cons kv rest ih =>
    intro hL
    have hstep : insertPairs m (kv :: rest) = insertPairs (m.insert kv.1 kv.2) rest := rfl
    rw [hstep]
    have hk : kv.2 = kv.1 := hL kv (List.mem_cons_self _ _)
    have hIns : SubId (m.insert kv.1 kv.2) := by
      rw [hk]
      exact h.insert kv.1
    exact ih hIns (fun x hx => hL x (List.mem_cons_of_mem _ hx))

/-- The (name, display name) pairs that seed the `better_names` dict. -/
def displayPairs (d : Dashboard) : List (String × String) :=
  (d.datasets.filterMap fun ds => ds.display_name.map fun dn => (ds.name, dn)) ++
  (d.pages.filterMap fun p => p.display_name.map fun dn => (p.name, dn))

theorem initialNames_eq_insertPairs (d : Dashboard) :
    initialNames d = insertPairs NameMap.empty (displayPairs d) := by
  have hds : ∀ (xs : List Dataset) (m : NameMap),
      xs.foldl (fun m ds =>
        match ds.display_name with
        | some dn => m.insert ds.name dn
        | none => m) m =
      insertPairs m (xs.filterMap fun ds => ds.display_name.map fun dn => (ds.name, dn)) := by
    intro xs
    induction xs with
    | nil => intro m; rfl
    | cons x rest ih =>
      intro m
      cases hx : x.display_name with
      | none => simp [insertPairs, hx, ih m]
      | some dn => simp [insertPairs, hx, ih (m.insert x.name dn)]
  have hpg : ∀ (xs : List Page) (m : NameMap),
      xs.foldl (fun m p =>
        match p.display_name with
        | some dn => m.insert p.name dn
        | none => m) m =
      insertPairs m (xs.filterMap fun p => p.display_name.map fun dn => (p.name, dn)) := by
    intro xs
    induction xs with
    | nil => intro m; rfl
    | cons x rest ih =>
      intro m
      cases hx : x.display_name with
      | none => simp [insertPairs, hx, ih m]
      | some dn => simp [insertPairs, hx, ih (m.insert x.name dn)]
  rw [initialNames, displayPairs, insertPairs_append, hds, hpg]

/-! ## Traversal computation lemmas for the counter shape -/

/-- The shape of every layout `create_dashboard` produces, with the widget
name and the dataset reference as parameters (the remote may have rewritten
the latter). -/
def counterLayout (widgetName dsName : String) : Layout :=
  { widget := { name := widgetName,
                queries := [{ name := "main_query",
                              query := { dataset_name := dsName,
                                         fields := [{ name := "count",
                                                      expression := "`count`" }],
                                         disaggregated := true } }],
                spec := some counterSpec },
    position := { x := 0, y := 0, width := 1, height := 3 } }

/-- The same layout after one normalization pass: the widget is renamed to its
spec type tag, and the names run through the map. -/
def counterLayoutNamed (queryName dsName : String) : Layout :=
  { widget := { name := "counter",
                queries := [{ name := queryName,
                              query := { dataset_name := dsName,
                                         fields := [{ name := "count",
                                                      expression := "`count`" }],
                                         disaggregated := true } }],
                spec := some counterSpec },
    position := { x := 0, y := 0, width := 1, height := 3 } }

theorem replaceNamesLayout_counter (m : NameMap) (w a : String) :
    replaceNamesLayout m (counterLayout w a) =
      (counterLayoutNamed (m.getD "main_query") (m.getD a), m) := by
  have hmq : strStartsWith "main_query" "dashboards/" = false := by decide
  simp [replaceNamesLayout, replaceNamesWidget, replaceNamesList, replaceNamesNamedQuery,
        replaceNamesQuery, replaceNamesSpec, counterLayout, counterLayoutNamed, counterSpec, hmq]

theorem replaceNamesList_datasets (m : NameMap) (xs : List Dataset) :
    replaceNamesList replaceNamesDataset m xs =
      (xs.map fun ds => { ds with name := m.getD ds.name }, m) := by
  induction xs with
  | nil => rfl
  | cons x rest ih => simp [replaceNamesList, replaceNamesDataset, ih]

theorem replaceNamesList_counterLayouts (m : NameMap) (ps : List (String × String)) :
    replaceNamesList replaceNamesLayout m (ps.map fun p => counterLayout p.1 p.2) =
      (ps.map fun p => counterLayoutNamed (m.getD "main_query") (m.getD p.2), m) := by
  induction ps with
  | nil => rfl
  | cons p rest ih => simp [replaceNamesList, replaceNamesLayout_counter, ih]

/-! ## The round trip of a locally built dashboard -/

/-- The common normalized form of a locally built dashboard: widget names are
the spec type tag, all other names are the human-chosen ones. -/
def normalizedCreate (folderName : String) (files : List (String × String)) : Dashboard :=
  { datasets := files.map fun fp =>
      ({ name := fp.1, display_name := some fp.1, query := fp.2 } : Dataset),
    pages := [{ name := folderName, display_name := some folderName,
                layout := files.map fun fp => counterLayoutNamed "main_query" fp.1 }] }

theorem createDashboard_eq (f : String) (files : List (String × String)) :
    createDashboard f files =
      { datasets := files.map fun fp =>
          ({ name := fp.1, display_name := some fp.1, query := fp.2 } : Dataset),
        pages := [{ name := f, display_name := some f,
                    layout := files.map fun fp => counterLayout fp.1 fp.1 }] } := rfl

theorem filterMap_displayCreate (files : List (String × String)) :
    ((files.map fun fp =>
        ({ name := fp.1, display_name := some fp.1, query := fp.2 } : Dataset)).filterMap
      fun ds => ds.display_name.map fun dn => (ds.name, dn)) =
      files.map fun fp => (fp.1, fp.1) := by
  induction files with
  | nil => rfl
  | cons x rest ih => simp [ih]

theorem filterMap_displayRemote (rho : String → String) (files : List (String × String)) :
    ((files.map fun fp =>
        ({ name := rho fp.1, display_name := some fp.1, query := fp.2 } : Dataset)).filterMap
      fun ds => ds.display_name.map fun dn => (ds.name, dn)) =
      files.map fun fp => (rho fp.1, fp.1) := by
  induction files with
  | nil => rfl
  | cons x rest ih => simp [ih]

theorem displayPairs_create (f : String) (files : List (String × String)) :
    displayPairs (createDashboard f files) =
      (files.map fun fp => (fp.1, fp.1)) ++ [(f, f)] := by
  rw [createDashboard_eq]
  unfold displayPairs
  dsimp only
  rw [filterMap_displayCreate]
  rfl

theorem replaceNamesDashboard_counterShape (m : NameMap) (dss : List Dataset)
    (pName : String) (pDisplay : Option String) (ps : List (String × String)) :
    replaceNamesDashboard m
      { datasets := dss,
        pages := [{ name := pName, display_name := pDisplay,
                    layout := ps.map fun p => counterLayout p.1 p.2 }] } =
      ({ datasets := dss.map fun ds => { ds with name := m.getD ds.name },
         pages := [{ name := m.getD pName, display_name := pDisplay,
                     layout := ps.map fun p =>
                       counterLayoutNamed (m.getD "main_query") (m.getD p.2) }] }, m) := by
  unfold replaceNamesDashboard
  rw [replaceNamesList_datasets]
  simp [replaceNamesList, replaceNamesPage, replaceNamesList_counterLayouts]

theorem withBetterNames_create (f : String) (files : List (String × String)) :
    withBetterNames (createDashboard f files) = normalizedCreate f files := by
  have hSub : SubId (initialNames (createDashboard f files)) := by
    rw [initialNames_eq_insertPairs, displayPairs_create]
    refine subId_insertPairs SubId.empty _ ?_
    intro kv hkv
    rcases List.mem_append.mp hkv with h | h
    · obtain ⟨fp, _, rfl⟩ := List.mem_map.mp h
      rfl
    · rw [List.mem_singleton] at h
      subst h
      rfl
  unfold withBetterNames
  set m0 := initialNames (createDashboard f files) with hm0
  rw [createDashboard_eq]
  have hLay : (files.map fun fp => counterLayout fp.1 fp.1) =
      (files.map fun fp => (fp.1, fp.1)).map fun p => counterLayout p.1 p.2 := by
    rw [List.map_map]
    rfl
  rw [hLay, replaceNamesDashboard_counterShape]
  simp only [hSub.getD, List.map_map]
  rfl

theorem remote_create_eq (rho : String → String) (f : String)
    (files : List (String × String)) :
    remoteRoundTrip rho (createDashboard f files) =
      { datasets := files.map fun fp =>
          ({ name := rho fp.1, display_name := some fp.1, query := fp.2 } : Dataset),
        pages := [{ name := rho f, display_name := some f,
                    layout := files.map fun fp => counterLayout fp.1 (rho fp.1) }] } := by
  rw [createDashboard_eq]
  unfold remoteRoundTrip
  dsimp only
  simp only [List.map_map, List.map_cons, List.map_nil]
  rfl

theorem displayPairs_remote (rho : String → String) (f : String)
    (files : List (String × String)) :
    displayPairs (remoteRoundTrip rho (createDashboard f files)) =
      (files.map fun fp => (rho fp.1, fp.1)) ++ [(rho f, f)] := by
  rw [remote_create_eq]
  unfold displayPairs
  dsimp only
  rw [filterMap_displayRemote]
  rfl

/-- C2: for every locally built dashboard, normalizing the dashboard read back
after deployment equals normalizing the local one, whatever fresh identifiers
the remote service assigned to the stored datasets and page (fresh meaning:
pairwise distinct and not colliding with the fixed `main_query` query
name). -/
theorem deploy_fetch_normalize_roundtrip (folderName : String)
    (files : List (String × String)) (rho : String → String)
    (hN : ((files.map fun fp => rho fp.1) ++ [rho folderName]).Nodup)
    (hmq : ∀ s ∈ files.map Prod.fst ++ [folderName], rho s ≠ "main_query") :
    withBetterNames (remoteRoundTrip rho (createDashboard folderName files)) =
      withBetterNames (createDashboard folderName files) := by
  rw [withBetterNames_create]
  set m := initialNames (remoteRoundTrip rho (createDashboard folderName files)) with hm
  have hmPairs : m = insertPairs NameMap.empty
      ((files.map fun fp => (rho fp.1, fp.1)) ++ [(rho folderName, folderName)]) := by
    rw [hm, initialNames_eq_insertPairs, displayPairs_remote]
  have hKeys : (((files.map fun fp => (rho fp.1, fp.1)) ++
      [(rho folderName, folderName)]).map Prod.fst) =
      (files.map fun fp => rho fp.1) ++ [rho folderName] := by
    simp
  have hLookupFile : ∀ fp ∈ files, m.getD (rho fp.1) = fp.1 := by
    intro fp hfp
    refine NameMap.getD_of_eq_some m ?_
    rw [hmPairs]
    refine insertPairs_apply_mem_nodup NameMap.empty _ (by rw [hKeys]; exact hN) ?_
    exact List.mem_append_left _ (List.mem_map.mpr ⟨fp, hfp, rfl⟩)
  have hLookupPage : m.getD (rho folderName) = folderName := by
    refine NameMap.getD_of_eq_some m ?_
    rw [hmPairs]
    refine insertPairs_apply_mem_nodup NameMap.empty _ (by rw [hKeys]; exact hN) ?_
    exact List.mem_append_right _ (List.mem_singleton.mpr rfl)
  have hLookupMq : m.getD "main_query" = "main_query" := by
    refine NameMap.getD_of_eq_none m ?_
    rw [hmPairs]
    refine insertPairs_apply_notMem NameMap.empty _ ?_
    rw [hKeys]
    intro hmem
    rcases List.mem_append.mp hmem with h | h
    · obtain ⟨fp, hfp, heq⟩ := List.mem_map.mp h
      exact hmq fp.1 (List.mem_append_left _ (List.mem_map.mpr ⟨fp, hfp, rfl⟩)) heq
    · rw [List.mem_singleton] at h
      exact hmq folderName (List.mem_append_right _ (List.mem_singleton.mpr rfl)) h.symm
  unfold withBetterNames
  have hLay : (files.map fun fp => counterLayout fp.1 (rho fp.1)) =
      (files.map fun fp => (fp.1, rho fp.1)).map fun p => counterLayout p.1 p.2 := by
    rw [List.map_map]
    rfl
  rw [← hm, remote_create_eq, hLay, replaceNamesDashboard_counterShape]
  simp only [List.map_map]
  unfold normalizedCreate
  refine congrArg₂ Dashboard.mk ?_ ?_
  · refine List.map_congr_left ?_
    intro fp hfp
    simp [Function.comp, hLookupFile fp hfp]
  · rw [hLookupPage]
    refine congrArg (fun l => [Page.mk folderName (some folderName) l]) ?_
    refine List.map_congr_left ?_
    intro fp hfp
    simp [Function.comp, hLookupMq, hLookupFile fp hfp]

/-- Closed instance of `deploy_fetch_normalize_roundtrip`: two SQL files, the
remote prefixing every stored identifier with `id_`. -/
theorem deploy_fetch_normalize_roundtrip_witness :
    (((([("a", "SELECT 1"), ("b", "SELECT 2")] : List (String × String)).map
        fun fp => "id_" ++ fp.1) ++ ["id_" ++ "folder"]).Nodup ∧
     ∀ s ∈ ([("a", "SELECT 1"), ("b", "SELECT 2")] : List (String × String)).map Prod.fst ++
        ["folder"], ("id_" ++ s) ≠ "main_query") ∧
    withBetterNames (remoteRoundTrip (fun s => "id_" ++ s)
        (createDashboard "folder" [("a", "SELECT 1"), ("b", "SELECT 2")])) =
      withBetterNames (createDashboard "folder" [("a", "SELECT 1"), ("b", "SELECT 2")]) :=
  ⟨⟨by decide, by decide⟩,
   deploy_fetch_normalize_roundtrip "folder" [("a", "SELECT 1"), ("b", "SELECT 2")]
     (fun s => "id_" ++ s) (by decide) (by decide)⟩

/-! ## Normalized shapes and idempotence of the normalizer -/

/-- A named query the normalizer leaves unchanged: when its name still matches
the remote-generated pattern, it already equals the name the pass would
synthesize. -/
def NQFix (nq : NamedQuery) : Prop :=
  strStartsWith nq.name "dashboards/" = true → nq.name = joinedName nq.query

/-- A widget the normalizer leaves unchanged: its queries are fixed and its
name already is the spec's type tag when a spec is present. -/
def WFix (w : Widget) : Prop :=
  (∀ nq ∈ w.queries, NQFix nq) ∧ ∀ s ∈ w.spec, w.name = s.widgetType.getD w.name

/-- A dashboard all of whose widgets are fixed.  Together with a sub-identity
seed map this makes a normalization pass the identity: dataset, page, query
and control lookups are then identity lookups, and widget renames
recompute the names already present. -/
def LayoutsFix (d : Dashboard) : Prop :=
  ∀ p ∈ d.pages, ∀ l ∈ p.layout, WFix l.widget

theorem replaceQuery_id {m : NameMap} (hm : SubId m) (q : Query) :
    replaceNamesQuery m q = (q, m) := by
  simp [replaceNamesQuery, hm.getD]

theorem replaceNamedQuery_id {m : NameMap} (hm : SubId m) (nq : NamedQuery)
    (hfix : NQFix nq) :
    (replaceNamesNamedQuery m nq).1 = nq ∧ SubId (replaceNamesNamedQuery m nq).2 := by
  cases hs : strStartsWith nq.name "dashboards/" with
  | true =>
    rw [replaceNamesNamedQuery_of_synthetic m nq hs, replaceQuery_id hm]
    have hname : joinedName nq.query = nq.name := (hfix hs).symm
    rw [hname]
    exact ⟨rfl, hm.insert nq.name⟩
  | false =>
    rw [replaceNamesNamedQuery_of_plain m nq hs, replaceQuery_id hm]
    rw [hm.getD nq.name]
    exact ⟨rfl, hm⟩

theorem replaceList_id {α : Type} (rep : NameMap → α → α × NameMap) (Q : α → Prop)
    (hstep : ∀ (m : NameMap) (x : α), SubId m → Q x →
      (rep m x).1 = x ∧ SubId (rep m x).2) :
    ∀ (xs : List α) (m : NameMap), SubId m → (∀ x ∈ xs, Q x) →
      (replaceNamesList rep m xs).1 = xs ∧ SubId (replaceNamesList rep m xs).2 := by
  intro xs
  induction xs with
  | nil => intro m hm _; exact ⟨rfl, hm⟩
  | cons x rest ih =>
    intro m hm hQ
    have h1 := hstep m x hm (hQ x (List.mem_cons_self _ _))
    have h2 := ih (rep m x).2 h1.2 (fun y hy => hQ y (List.mem_cons_of_mem _ hy))
    constructor
    · show (rep m x).1 :: (replaceNamesList rep (rep m x).2 rest).1 = x :: rest
      rw [h1.1, h2.1]
    · exact h2.2

theorem replaceCfe_id {m : NameMap} (hm : SubId m) (c : ControlFieldEncoding) :
    replaceNamesCfe m c = (c, m) := by
  simp [replaceNamesCfe, hm.getD]

theorem replaceCfeList_snd :
    ∀ (cs : List ControlFieldEncoding) (m : NameMap),
      (replaceNamesList replaceNamesCfe m cs).2 = m := by
  intro cs
  induction cs with
  | nil => intro m; rfl
  | cons c rest ih => intro m; exact ih m

theorem replaceSpec_snd (m : NameMap) (s : WidgetSpec) :
    (replaceNamesSpec m s).2 = m :=
  replaceCfeList_snd s.controls m

theorem replaceSpec_widgetType (m : NameMap) (s : WidgetSpec) :
    (replaceNamesSpec m s).1.widgetType = s.widgetType := rfl

theorem replaceSpec_id {m : NameMap} (hm : SubId m) (s : WidgetSpec) :
    replaceNamesSpec m s = (s, m) := by
  have h := replaceList_id replaceNamesCfe (fun _ => True)
    (fun m' c hm' _ => by rw [replaceCfe_id hm']; exact ⟨rfl, hm'⟩)
    s.controls m hm (fun _ _ => trivial)
  rw [Prod.ext_iff]
  refine ⟨?_, replaceSpec_snd m s⟩
  show ({ s with controls := (replaceNamesList replaceNamesCfe m s.controls).1 } : WidgetSpec) = s
  rw [h.1]

theorem replaceWidget_id {m : NameMap} (hm : SubId m) (w : Widget) (hfix : WFix w) :
    (replaceNamesWidget m w).1 = w ∧ SubId (replaceNamesWidget m w).2 := by
  obtain ⟨wname, wqueries, wspec⟩ := w
  obtain ⟨hq, hs⟩ := hfix
  have hlist := replaceList_id replaceNamesNamedQuery NQFix
    (fun m' nq hm' hfix' => replaceNamedQuery_id hm' nq hfix') wqueries m hm hq
  cases wspec with
  | none =>
    unfold replaceNamesWidget
    simp only
    rw [hlist.1]
    exact ⟨rfl, hlist.2⟩
  | some s =>
    unfold replaceNamesWidget
    simp only
    rw [hlist.1, replaceSpec_id hlist.2]
    have hname : wname = s.widgetType.getD wname := hs s rfl
    simp only
    rw [← hname]
    exact ⟨rfl, hlist.2⟩

theorem replaceLayout_id {m : NameMap} (hm : SubId m) (l : Layout) (hfix : WFix l.widget) :
    (replaceNamesLayout m l).1 = l ∧ SubId (replaceNamesLayout m l).2 := by
  have h := replaceWidget_id hm l.widget hfix
  unfold replaceNamesLayout
  constructor
  · show ({ l with widget := (replaceNamesWidget m l.widget).1 } : Layout) = l
    rw [h.1]
  · exact h.2

theorem replacePage_id {m : NameMap} (hm : SubId m) (p : Page)
    (hfix : ∀ l ∈ p.layout, WFix l.widget) :
    (replaceNamesPage m p).1 = p ∧ SubId (replaceNamesPage m p).2 := by
  have hlist := replaceList_id replaceNamesLayout (fun l => WFix l.widget)
    (fun m' l hm' hfix' => replaceLayout_id hm' l hfix') p.layout m hm hfix
  unfold replaceNamesPage
  constructor
  · show ({ p with
        layout := (replaceNamesList replaceNamesLayout m p.layout).1,
        name := (replaceNamesList replaceNamesLayout m p.layout).2.getD p.name } : Page) = p
    rw [hlist.1, hlist.2.getD p.name]
  · exact hlist.2

theorem replaceDataset_id {m : NameMap} (hm : SubId m) (ds : Dataset) :
    replaceNamesDataset m ds = (ds, m) := by
  simp [replaceNamesDataset, hm.getD]

theorem replaceDashboard_id {m : NameMap} (hm : SubId m) (d : Dashboard)
    (hfix : LayoutsFix d) : (replaceNamesDashboard m d).1 = d := by
  have hds := replaceList_id replaceNamesDataset (fun _ => True)
    (fun m' x hm' _ => by rw [replaceDataset_id hm']; exact ⟨rfl, hm'⟩)
    d.datasets m hm (fun _ _ => trivial)
  have hpg := replaceList_id replaceNamesPage (fun p => ∀ l ∈ p.layout, WFix l.widget)
    (fun m' p hm' hfix' => replacePage_id hm' p hfix')
    d.pages (replaceNamesList replaceNamesDataset m d.datasets).2 hds.2 hfix
  unfold replaceNamesDashboard
  simp only
  rw [hds.1, hpg.1]

/-- A normalization pass is the identity when its seed map is a sub-identity
and every widget is already fixed. -/
theorem withBetterNames_fixed (d : Dashboard) (hsub : SubId (initialNames d))
    (hfix : LayoutsFix d) : withBetterNames d = d :=
  replaceDashboard_id hsub d hfix

/-! ## What the first normalization pass establishes -/

/-- The traversal only writes map entries at remote-pattern keys: lookups at
plain keys agree with the seed map. -/
def PlainMap (m0 m : NameMap) : Prop :=
  ∀ k, strStartsWith k "dashboards/" = false → m k = m0 k

theorem PlainMap.rfl (m : NameMap) : PlainMap m m := fun _ _ => Eq.refl _

theorem PlainMap.trans {a b c : NameMap} (h1 : PlainMap a b) (h2 : PlainMap b c) :
    PlainMap a c := fun k hk => (h2 k hk).trans (h1 k hk)

/-- Entries at plain keys have plain values (they are display names). -/
def CleanVals (m : NameMap) : Prop :=
  ∀ k v, m k = some v → strStartsWith k "dashboards/" = false →
    strStartsWith v "dashboards/" = false

theorem cleanVals_of_plainMap {m0 m : NameMap} (h0 : CleanVals m0)
    (hp : PlainMap m0 m) : CleanVals m := by
  intro k v hk hplain
  rw [hp k hplain] at hk
  exact h0 k v hk hplain

theorem replaceNamedQuery_shape (m : NameMap) (hm : CleanVals m) (nq : NamedQuery) :
    NQFix (replaceNamesNamedQuery m nq).1 ∧
    PlainMap m (replaceNamesNamedQuery m nq).2 ∧
    CleanVals (replaceNamesNamedQuery m nq).2 := by
  cases hs : strStartsWith nq.name "dashboards/" with
  | true =>
    rw [replaceNamesNamedQuery_of_synthetic m nq hs]
    have hne : ∀ k : String, strStartsWith k "dashboards/" = false → k ≠ nq.name := by
      intro k hk he
      rw [he, hs] at hk
      cases hk
    refine ⟨?_, ?_, ?_⟩
    · intro _
      simp only [NameMap.getD_insert_self]
    · intro k hk
      show NameMap.insert nq.name _ _ k = m k
      exact NameMap.insert_apply_of_ne _ (hne k hk)
    · intro k v hk hplain
      simp only at hk
      rw [NameMap.insert_apply_of_ne _ (hne k hplain)] at hk
      exact hm k v hk hplain
  | false =>
    rw [replaceNamesNamedQuery_of_plain m nq hs]
    refine ⟨?_, PlainMap.rfl m, hm⟩
    intro hsyn
    exfalso
    simp only at hsyn
    unfold NameMap.getD at hsyn
    cases hmk : m nq.name with
    | none =>
      rw [hmk] at hsyn
      simp only [Option.getD_none] at hsyn
      rw [hsyn] at hs
      cases hs
    | some v =>
      rw [hmk] at hsyn
      simp only [Option.getD_some] at hsyn
      have hclean := hm nq.name v hmk hs
      rw [hsyn] at hclean
      cases hclean

theorem replaceList_shape {α : Type} (rep : NameMap → α → α × NameMap) (Q : α → Prop)
    (hstep : ∀ (m : NameMap) (x : α), CleanVals m →
      Q ((rep m x).1) ∧ PlainMap m ((rep m x).2) ∧ CleanVals ((rep m x).2)) :
    ∀ (xs : List α) (m : NameMap), CleanVals m →
      (∀ y ∈ (replaceNamesList rep m xs).1, Q y) ∧
      PlainMap m ((replaceNamesList rep m xs).2) ∧
      CleanVals ((replaceNamesList rep m xs).2) := by
  intro xs
  induction xs with
  | nil =>
    intro m hm
    refine ⟨?_, PlainMap.rfl m, hm⟩
    intro y hy
    cases hy
  | cons x rest ih =>
    intro m hm
    have h1 := hstep m x hm
    have h2 := ih (rep m x).2 h1.2.2
    refine ⟨?_, h1.2.1.trans h2.2.1, h2.2.2⟩
    intro y hy
    have hy' : y ∈ (rep m x).1 :: (replaceNamesList rep (rep m x).2 rest).1 := hy
    rcases List.mem_cons.mp hy' with h | h
    · rw [h]
      exact h1.1
    · exact h2.1 y h

theorem replaceWidget_shape (m : NameMap) (hm : CleanVals m) (w : Widget) :
    WFix (replaceNamesWidget m w).1 ∧
    PlainMap m (replaceNamesWidget m w).2 ∧
    CleanVals (replaceNamesWidget m w).2 := by
  obtain ⟨wname, wqueries, wspec⟩ := w
  have hlist := replaceList_shape replaceNamesNamedQuery NQFix
    (fun m' nq hm' => replaceNamedQuery_shape m' hm' nq) wqueries m hm
  cases wspec with
  | none =>
    refine ⟨⟨?_, ?_⟩, hlist.2.1, hlist.2.2⟩
    · intro nq hnq
      exact hlist.1 nq hnq
    · intro s hs
      cases hs
  | some s =>
    have hmain : replaceNamesWidget m ⟨wname, wqueries, some s⟩ =
        ({ name := (replaceNamesSpec (replaceNamesList replaceNamesNamedQuery m wqueries).2
              s).1.widgetType.getD wname,
           queries := (replaceNamesList replaceNamesNamedQuery m wqueries).1,
           spec := some (replaceNamesSpec (replaceNamesList replaceNamesNamedQuery m wqueries).2
              s).1 },
         (replaceNamesSpec (replaceNamesList replaceNamesNamedQuery m wqueries).2 s).2) := rfl
    rw [hmain]
    rw [replaceSpec_snd]
    refine ⟨⟨?_, ?_⟩, hlist.2.1, hlist.2.2⟩
    · intro nq hnq
      exact hlist.1 nq hnq
    · intro s' hs'
      rw [Option.mem_def] at hs'
      injection hs' with hs''
      rw [← hs'']
      show (replaceNamesSpec (replaceNamesList replaceNamesNamedQuery m wqueries).2
          s).1.widgetType.getD wname =
        ((replaceNamesSpec (replaceNamesList replaceNamesNamedQuery m wqueries).2
          s).1.widgetType).getD
          ((replaceNamesSpec (replaceNamesList replaceNamesNamedQuery m wqueries).2
            s).1.widgetType.getD wname)
      rw [replaceSpec_widgetType]
      cases s.widgetType with
      | none => rfl
      | some t => rfl

theorem replaceLayout_shape (m : NameMap) (hm : CleanVals m) (l : Layout) :
    WFix (replaceNamesLayout m l).1.widget ∧
    PlainMap m (replaceNamesLayout m l).2 ∧
    CleanVals (replaceNamesLayout m l).2 :=
  replaceWidget_shape m hm l.widget

theorem replacePages_main (m0 : NameMap) :
    ∀ (pages : List Page) (m : NameMap), CleanVals m → PlainMap m0 m →
      (∀ p ∈ pages, strStartsWith p.name "dashboards/" = false) →
      (∀ p' ∈ (replaceNamesList replaceNamesPage m pages).1, ∀ l ∈ p'.layout, WFix l.widget) ∧
      ((replaceNamesList replaceNamesPage m pages).1.filterMap
          fun p => p.display_name.map fun dn => (p.name, dn)) =
        (pages.filterMap fun p => p.display_name.map fun dn => (p.name, dn)).map
          (fun kv => (m0.getD kv.1, kv.2)) ∧
      CleanVals (replaceNamesList replaceNamesPage m pages).2 ∧
      PlainMap m0 (replaceNamesList replaceNamesPage m pages).2 := by
  intro pages
  induction pages with
  | nil =>
    intro m hm hp _
    refine ⟨?_, rfl, hm, hp⟩
    intro y hy
    cases hy
  | cons p rest ih =>
    intro m hm hp hplain
    have hlay := replaceList_shape replaceNamesLayout (fun l => WFix l.widget)
      (fun m' l hm' => replaceLayout_shape m' hm' l) p.layout m hm
    have hm2 : PlainMap m0 (replaceNamesList replaceNamesLayout m p.layout).2 :=
      hp.trans hlay.2.1
    have hmain : (replaceNamesPage m p).1 =
        { p with layout := (replaceNamesList replaceNamesLayout m p.layout).1,
                 name := (replaceNamesList replaceNamesLayout m p.layout).2.getD p.name } := rfl
    have hsnd : (replaceNamesPage m p).2 =
        (replaceNamesList replaceNamesLayout m p.layout).2 := rfl
    have hname : (replaceNamesPage m p).1.name = m0.getD p.name := by
      rw [hmain]
      show (replaceNamesList replaceNamesLayout m p.layout).2.getD p.name = m0.getD p.name
      unfold NameMap.getD
      rw [hm2 p.name (hplain p (List.mem_cons_self _ _))]
    have hrest := ih (replaceNamesPage m p).2 (by rw [hsnd]; exact hlay.2.2)
      (by rw [hsnd]; exact hm2)
      (fun q hq => hplain q (List.mem_cons_of_mem _ hq))
    have hlist : (replaceNamesList replaceNamesPage m (p :: rest)).1 =
        (replaceNamesPage m p).1 ::
          (replaceNamesList replaceNamesPage (replaceNamesPage m p).2 rest).1 := rfl
    refine ⟨?_, ?_, hrest.2.2.1, hrest.2.2.2⟩
    · intro p' hp'
      rw [hlist] at hp'
      rcases List.mem_cons.mp hp' with h | h
      · rw [h, hmain]
        intro l hl
        exact hlay.1 l hl
      · exact hrest.1 p' h
    · rw [hlist, List.filterMap_cons, List.filterMap_cons]
      have hdisp : (replaceNamesPage m p).1.display_name = p.display_name := by
        rw [hmain]
      cases hdn : p.display_name with
      | none =>
        rw [hdisp, hdn]
        simp only [Option.map_none']
        exact hrest.2.1
      | some dn =>
        rw [hdisp, hdn]
        simp only [Option.map_some', List.map_cons]
        rw [hname, hrest.2.1]

/-! ## The seed map of a normalized dashboard -/

theorem insertPairs_apply_eq_some (L : List (String × String)) :
    ∀ (m : NameMap) (k v : String), insertPairs m L k = some v →
      (k, v) ∈ L ∨ m k = some v := by
  induction L with
  | nil => intro m k v h; exact Or.inr h
  | cons kv rest ih =>
    intro m k v h
    have hstep : insertPairs m (kv :: rest) = insertPairs (m.insert kv.1 kv.2) rest := rfl
    rw [hstep] at h
    rcases ih (m.insert kv.1 kv.2) k v h with h' | h'
    · exact Or.inl (List.mem_cons_of_mem _ h')
    · by_cases hk : k = kv.1
      · rw [hk, NameMap.insert_apply_self] at h'
        obtain ⟨a, b⟩ := kv
        injection h' with hv
        left
        rw [hk, ← hv]
        exact List.mem_cons_self _ _
      · rw [NameMap.insert_apply_of_ne _ hk] at h'
        exact Or.inr h'

theorem initialNames_cleanVals (d : Dashboard)
    (h5 : ∀ ds ∈ d.datasets, ∀ n ∈ ds.display_name, strStartsWith n "dashboards/" = false)
    (h6 : ∀ p ∈ d.pages, ∀ n ∈ p.display_name, strStartsWith n "dashboards/" = false) :
    CleanVals (initialNames d) := by
  intro k v hk _
  rw [initialNames_eq_insertPairs] at hk
  rcases insertPairs_apply_eq_some _ _ _ _ hk with h | h
  · rcases List.mem_append.mp h with h' | h'
    · obtain ⟨ds, hds, hkv⟩ := List.mem_filterMap.mp h'
      cases hdn : ds.display_name with
      | none => rw [hdn] at hkv; cases hkv
      | some dn =>
        rw [hdn] at hkv
        simp only [Option.map_some', Option.some.injEq, Prod.mk.injEq] at hkv
        rw [← hkv.2]
        exact h5 ds hds dn (Option.mem_def.mpr hdn)
    · obtain ⟨p, hp, hkv⟩ := List.mem_filterMap.mp h'
      cases hdn : p.display_name with
      | none => rw [hdn] at hkv; cases hkv
      | some dn =>
        rw [hdn] at hkv
        simp only [Option.map_some', Option.some.injEq, Prod.mk.injEq] at hkv
        rw [← hkv.2]
        exact h6 p hp dn (Option.mem_def.mpr hdn)
  · cases h

/-- The value of the last binding of `k` in a pair list (later entries shadow
earlier ones, like repeated dict assignment). -/
def lastAssoc (k : String) : List (String × String) → Option String
  | [] => none
  | kv :: rest => (lastAssoc k rest).or (if kv.1 = k then some kv.2 else none)

theorem insertPairs_apply (m : NameMap) :
    ∀ (L : List (String × String)) (k : String),
      insertPairs m L k = (lastAssoc k L).or (m k) := by
  intro L
  induction L generalizing m with
  | nil => intro k; rfl
  | cons kv rest ih =>
    intro k
    have hstep : insertPairs m (kv :: rest) = insertPairs (m.insert kv.1 kv.2) rest := rfl
    rw [hstep, ih (m.insert kv.1 kv.2) k]
    show (lastAssoc k rest).or (m.insert kv.1 kv.2 k) =
      ((lastAssoc k rest).or (if kv.1 = k then some kv.2 else none)).or (m k)
    cases hrest : lastAssoc k rest with
    | some v => rfl
    | none =>
      rw [Option.none_or, Option.none_or]
      unfold NameMap.insert
      by_cases hk : k = kv.1
      · rw [if_pos hk, if_pos (hk.symm)]
        rfl
      · rw [if_neg hk, if_neg (fun h => hk h.symm), Option.none_or]

/-- A key bound in a pair list stays bound, at its image key, after every key
is pushed through a renaming. -/
theorem lastAssoc_map_isSome (g : String → String) :
    ∀ (R : List (String × String)) (c w : String),
      lastAssoc c R = some w →
      ∃ v, lastAssoc (g c) (R.map fun kv => (g kv.1, kv.2)) = some v := by
  intro R
  induction R with
  | nil => intro c w h; cases h
  | cons kv rest ih =>
    intro c w h
    rw [lastAssoc] at h
    rw [List.map_cons, lastAssoc]
    cases hrest : lastAssoc c rest with
    | some w' =>
      obtain ⟨v, hv⟩ := ih c w' hrest
      rw [hv]
      exact ⟨v, rfl⟩
    | none =>
      rw [hrest, Option.none_or] at h
      by_cases hk : kv.1 = c
      · cases hmap : lastAssoc (g c) (rest.map fun kv => (g kv.1, kv.2)) with
        | some v => exact ⟨v, rfl⟩
        | none =>
          refine ⟨kv.2, ?_⟩
          rw [Option.none_or, if_pos (show (g kv.1, kv.2).1 = g c by rw [hk])]
      · rw [if_neg hk] at h
        cases h

/-- The key step behind idempotence: push every key of a pair list through a
renaming `g` that agrees with the list's own last bindings; then in the
renamed list, the last binding of any key is that key itself. -/
theorem lastAssoc_map_eq_key (g : String → String) (k : String) :
    ∀ R : List (String × String),
      (∀ c w, lastAssoc c R = some w → g c = k → w = k) →
      ∀ v, lastAssoc k (R.map fun kv => (g kv.1, kv.2)) = some v → v = k := by
  intro R
  induction R with
  | nil => intro _ v h; cases h
  | cons kv rest ih =>
    intro hInv v h
    rw [List.map_cons, lastAssoc] at h
    cases hrest : lastAssoc k (rest.map fun kv => (g kv.1, kv.2)) with
    | some v' =>
      rw [hrest] at h
      have h' : some v' = some v := h
      injection h' with hv
      have hInv' : ∀ c w, lastAssoc c rest = some w → g c = k → w = k := by
        intro c w hw hg
        refine hInv c w ?_ hg
        rw [lastAssoc, hw]
        rfl
      rw [← hv]
      exact ih hInv' v' hrest
    | none =>
      rw [hrest, Option.none_or] at h
      by_cases hg : g kv.1 = k
      · rw [if_pos hg] at h
        injection h with hv
        cases hr2 : lastAssoc kv.1 rest with
        | some w'' =>
          obtain ⟨v'', hv''⟩ := lastAssoc_map_isSome g rest kv.1 w'' hr2
          rw [hg, hrest] at hv''
          cases hv''
        | none =>
          have hfull : lastAssoc kv.1 (kv :: rest) = some kv.2 := by
            rw [lastAssoc, hr2, Option.none_or, if_pos rfl]
          rw [← hv]
          exact hInv kv.1 kv.2 hfull hg
      · rw [if_neg hg] at h
        cases h

/-- Re-seeding is sub-identity: replace every key of a pair list by its own
final binding (the dict built from the list), rebuild the dict from the
renamed list — every entry of the new dict is then the identity on its key,
because both dicts resolve each shadowing the same way. -/
theorem subId_reseed (L : List (String × String)) :
    SubId (insertPairs NameMap.empty
      (L.map fun kv => ((insertPairs NameMap.empty L).getD kv.1, kv.2))) := by
  intro k v hv
  rw [insertPairs_apply] at hv
  rw [NameMap.empty_apply, Option.or_none] at hv
  refine lastAssoc_map_eq_key _ k L ?_ v hv
  intro c w hw hg
  have hc : insertPairs NameMap.empty L c = some w := by
    rw [insertPairs_apply, hw]
    rfl
  rw [← hg]
  unfold NameMap.getD
  rw [hc]
  rfl

/-- The dataset seed pairs after one pass are the original ones with keys
pushed through the seed map. -/
theorem dsPairs_map (m0 : NameMap) (xs : List Dataset) :
    ((xs.map fun ds => { ds with name := m0.getD ds.name }).filterMap
        fun ds => ds.display_name.map fun dn => (ds.name, dn)) =
      (xs.filterMap fun ds => ds.display_name.map fun dn => (ds.name, dn)).map
        (fun kv => (m0.getD kv.1, kv.2)) := by
  induction xs with
  | nil => rfl
  | cons x rest ih =>
    cases hx : x.display_name with
    | none => simp only [List.map_cons, List.filterMap_cons, hx, Option.map_none']; exact ih
    | some dn =>
      simp only [List.map_cons, List.filterMap_cons, hx, Option.map_some', List.map_cons]
      rw [ih]

/-- After one pass, the seed pairs are the original ones with every key
pushed through the original seed map (page names must be outside the
remote-generated pattern so that the traversal's synthetic registrations do
not interfere with their lookups). -/
theorem displayPairs_withBetterNames (d : Dashboard)
    (h1 : ∀ p ∈ d.pages, strStartsWith p.name "dashboards/" = false)
    (h2 : ∀ ds ∈ d.datasets, ∀ n ∈ ds.display_name, strStartsWith n "dashboards/" = false)
    (h3 : ∀ p ∈ d.pages, ∀ n ∈ p.display_name, strStartsWith n "dashboards/" = false) :
    displayPairs (withBetterNames d) =
      (displayPairs d).map fun kv => ((initialNames d).getD kv.1, kv.2) := by
  have hclean : CleanVals (initialNames d) := initialNames_cleanVals d h2 h3
  have hmain : withBetterNames d =
      { datasets := (replaceNamesList replaceNamesDataset (initialNames d) d.datasets).1,
        pages := (replaceNamesList replaceNamesPage
          (replaceNamesList replaceNamesDataset (initialNames d) d.datasets).2 d.pages).1 } := rfl
  have hdsl := replaceNamesList_datasets (initialNames d) d.datasets
  have hpg := replacePages_main (initialNames d) d.pages (initialNames d) hclean
    (PlainMap.rfl _) h1
  rw [hmain]
  unfold displayPairs
  simp only
  rw [hdsl]
  simp only
  rw [dsPairs_map, hpg.2.1, List.map_append]

/-- After one pass, every widget is fixed. -/
theorem withBetterNames_layoutsFix (d : Dashboard)
    (h1 : ∀ p ∈ d.pages, strStartsWith p.name "dashboards/" = false)
    (h2 : ∀ ds ∈ d.datasets, ∀ n ∈ ds.display_name, strStartsWith n "dashboards/" = false)
    (h3 : ∀ p ∈ d.pages, ∀ n ∈ p.display_name, strStartsWith n "dashboards/" = false) :
    LayoutsFix (withBetterNames d) := by
  have hclean : CleanVals (initialNames d) := initialNames_cleanVals d h2 h3
  have hmain : withBetterNames d =
      { datasets := (replaceNamesList replaceNamesDataset (initialNames d) d.datasets).1,
        pages := (replaceNamesList replaceNamesPage
          (replaceNamesList replaceNamesDataset (initialNames d) d.datasets).2 d.pages).1 } := rfl
  have hdsl := replaceNamesList_datasets (initialNames d) d.datasets
  intro p hp
  rw [hmain] at hp
  simp only at hp
  rw [hdsl] at hp
  simp only at hp
  have hpg := replacePages_main (initialNames d) d.pages (initialNames d) hclean
    (PlainMap.rfl _) h1
  exact hpg.1 p hp

/-- The dashboard on which normalization is not idempotent: its page carries
the same remote-generated name as its named query, so the first pass renames
the page to the synthesized query name instead of its display name, and the
second pass then maps that name to the page's display name. -/
def hijackedQuery : Query :=
  { dataset_name := "ds",
    fields := [{ name := "count", expression := "c" }],
    disaggregated := true }

def hijackedWidget : Widget :=
  { name := "w",
    queries := [{ name := "dashboards/q", query := hijackedQuery }],
    spec := none }

def pageHijackDashboard : Dashboard :=
  { datasets := [{ name := "ds", display_name := some "ds", query := "SELECT 1" }],
    pages := [{ name := "dashboards/q", display_name := some "P",
                layout := [{ widget := hijackedWidget,
                             position := { x := 0, y := 0, width := 1, height := 3 } }] }] }

/-- C10 counterexample: normalization is not idempotent on
`pageHijackDashboard` — the first pass yields named-query and page name
`ds_count`, the second pass rewrites both to the page display name `P`. -/
theorem withBetterNames_not_idempotent :
    withBetterNames (withBetterNames pageHijackDashboard) ≠
      withBetterNames pageHijackDashboard := by
  decide

/-- C10 (amended): name normalization is idempotent on every dashboard in
which no page name, dataset display name or page display name matches the
remote-generated `dashboards/` pattern — after one pass, dataset names, page
names, query dataset references, named-query names and widget names are all
fixed points of a second pass. -/
theorem withBetterNames_idempotent (d : Dashboard)
    (h1 : ∀ p ∈ d.pages, strStartsWith p.name "dashboards/" = false)
    (h2 : ∀ ds ∈ d.datasets, ∀ n ∈ ds.display_name, strStartsWith n "dashboards/" = false)
    (h3 : ∀ p ∈ d.pages, ∀ n ∈ p.display_name, strStartsWith n "dashboards/" = false) :
    withBetterNames (withBetterNames d) = withBetterNames d := by
  have hsub : SubId (initialNames (withBetterNames d)) := by
    rw [initialNames_eq_insertPairs, displayPairs_withBetterNames d h1 h2 h3]
    simp only [initialNames_eq_insertPairs]
    exact subId_reseed (displayPairs d)
  exact withBetterNames_fixed _ hsub (withBetterNames_layoutsFix d h1 h2 h3)

/-- A dashboard on which the idempotence theorem is instantiated: two datasets
sharing one name, a page named like one of the datasets, and a remote-pattern
named query — uniqueness or disjointness of names is not required. -/
def collidingDashboard : Dashboard :=
  { datasets := [{ name := "d1", display_name := some "Data One", query := "SELECT 1" },
                 { name := "d1", display_name := some "Data Two", query := "SELECT 2" }],
    pages := [{ name := "d1", display_name := some "Page One",
                layout := [{ widget := hijackedWidget,
                             position := { x := 0, y := 0, width := 1, height := 3 } }] }] }

/-- Closed instance of `withBetterNames_idempotent` at `collidingDashboard`,
with every side condition checked concretely. -/
theorem withBetterNames_idempotent_witness :
    ((∀ p ∈ collidingDashboard.pages, strStartsWith p.name "dashboards/" = false) ∧
     (∀ ds ∈ collidingDashboard.datasets, ∀ n ∈ ds.display_name,
        strStartsWith n "dashboards/" = false) ∧
     (∀ p ∈ collidingDashboard.pages, ∀ n ∈ p.display_name,
        strStartsWith n "dashboards/" = false)) ∧
    withBetterNames (withBetterNames collidingDashboard) = withBetterNames collidingDashboard :=
  ⟨⟨by decide, by decide, by decide⟩,
   withBetterNames_idempotent collidingDashboard (by decide) (by decide) (by decide)⟩

/-! ## Claims -/

/-- C1: the packing invariant fails on the program.  `create_dashboard`
assigns every tile `Position(x=0, y=0, width=1, height=3)`, so a folder with
two SQL files produces two identical positions, and they overlap.  (The
position `x + width = 1 ≤ 6` bound holds only because every position is the
same constant.) -/
theorem create_dashboard_positions_overlap :
    ((createDashboard "folder" [("a", "SELECT 1"), ("b", "SELECT 2")]).pages.map
      fun p => p.layout.map fun l => l.position) =
      [[{ x := 0, y := 0, width := 1, height := 3 },
        { x := 0, y := 0, width := 1, height := 3 }]] ∧
    overlaps { x := 0, y := 0, width := 1, height := 3 }
      { x := 0, y := 0, width := 1, height := 3 } := by
  exact ⟨rfl, by decide⟩

/-- C6: directive parsing does not happen in the program.  `create_dashboard`
stores the raw SQL text verbatim as the dataset query — the directive line
`-- --width 6 --height 3` is neither interpreted (the tile keeps the constant
1×3 position) nor stripped from the body. -/
theorem create_dashboard_ignores_directives :
    ((createDashboard "folder" [("counter", "-- --width 6 --height 3\nSELECT 1")]).datasets.map
      fun ds => ds.query) = ["-- --width 6 --height 3\nSELECT 1"] ∧
    ((createDashboard "folder" [("counter", "-- --width 6 --height 3\nSELECT 1")]).pages.map
      fun p => p.layout.map fun l => l.position) =
      [[{ x := 0, y := 0, width := 1, height := 3 }]] := by
  exact ⟨rfl, rfl⟩

/-- C7: no `(order, identity)` sorting happens in the program.
`create_dashboard` lays tiles out in glob discovery order for every input, and
no order directive is read: with files `0..5` and `4.sql` carrying
`-- --order 1`, tile `4` stays at its index-of-discovery position after `3`,
not between `1` and `2`. -/
theorem create_dashboard_keeps_discovery_order :
    (∀ (f : String) (files : List (String × String)),
      ((createDashboard f files).pages.map fun p => p.layout.map fun l => l.widget.name) =
        [files.map Prod.fst]) ∧
    ((createDashboard "folder"
        [("0", "SELECT 0 AS count"), ("1", "SELECT 1 AS count"), ("2", "SELECT 2 AS count"),
         ("3", "SELECT 3 AS count"), ("4", "-- --order 1\nSELECT 4 AS count"),
         ("5", "SELECT 5 AS count")]).pages.map
      fun p => p.layout.map fun l => l.widget.name) = [["0", "1", "2", "3", "4", "5"]] := by
  constructor
  · intro f files
    rw [createDashboard_eq]
    simp only [List.map_cons, List.map_nil, List.map_map]
    rfl
  · rfl

/-- C8: loading never fails in the program.  `create_dashboard` raises no
error for a missing or empty directory: the glob yields nothing and a
dashboard with no datasets and one empty page is silently returned. -/
theorem create_dashboard_empty_folder_silent (f : String) :
    createDashboard f [] =
      { datasets := [], pages := [{ name := f, display_name := some f, layout := [] }] } := rfl

/-- C9: the dataset-per-tile half of the claim holds (one dataset per query
tile, named by the file stem), but the field-naming half fails on the program:
`create_dashboard` hard-codes `Field(name="count")` for every tile, so a query
whose sole output column is `Something Else Than Count` still gets a field
named `count`. -/
theorem create_dashboard_hardcodes_count_field :
    (∀ (f : String) (files : List (String × String)),
      (createDashboard f files).datasets.map (fun ds => ds.name) = files.map Prod.fst ∧
      ((createDashboard f files).pages.map fun p => p.layout.map
        fun l => l.widget.queries.map fun nq => nq.query.fields.map fun fld => fld.name) =
        [files.map fun _ => [["count"]]]) ∧
    ((createDashboard "folder" [("counter", "SELECT 10 AS `Something Else Than Count`")]).pages.map
      fun p => p.layout.map fun l => l.widget.queries.map
        fun nq => nq.query.fields.map fun fld => fld.name) = [[[["count"]]]] ∧
    "count" ≠ "Something Else Than Count" := by
  refine ⟨fun f files => ⟨?_, ?_⟩, rfl, by decide⟩
  · rw [createDashboard_eq]
    simp only [List.map_map]
    rfl
  · rw [createDashboard_eq]
    simp only [List.map_cons, List.map_nil, List.map_map]
    rfl

/-- C3: during name normalization, a `NamedQuery` whose name matches the
remote-generated `dashboards/...` pattern is renamed to the query's dataset
name joined with all its field names by underscores, and that new name is
registered in the name map (so it is visible to subsequent lookups); a
`NamedQuery` whose name does not match the pattern only gets the plain map
lookup.  In particular the remote name over a query with dataset name
`counter` and one field `count` becomes `counter_count`. -/
theorem namedQuery_rename_spec (m : NameMap) (nq : NamedQuery) :
    (strStartsWith nq.name "dashboards/" = true →
      (replaceNamesNamedQuery m nq).1.name = joinedName (replaceNamesQuery m nq.query).1 ∧
      ((replaceNamesNamedQuery m nq).2) nq.name =
        some (joinedName (replaceNamesQuery m nq.query).1)) ∧
    (strStartsWith nq.name "dashboards/" = false →
      (replaceNamesNamedQuery m nq).1.name = m.getD nq.name ∧
      (replaceNamesNamedQuery m nq).2 = m) ∧
    (replaceNamesNamedQuery NameMap.empty
        { name := "dashboards/01eeb077e38c17e6ba3511036985960c/datasets/01eeb081882017f6a116991d124d3068_x",
          query := { dataset_name := "counter",
                     fields := [{ name := "count", expression := "`count`" }],
                     disaggregated := true } }).1.name = "counter_count" := by
  refine ⟨fun h => ?_, fun h => ?_, by decide⟩
  · rw [replaceNamesNamedQuery_of_synthetic m nq h]
    simp
  · rw [replaceNamesNamedQuery_of_plain m nq h]
    simp

/-- Closed instance of `namedQuery_rename_spec`: its synthetic-pattern part at
a concrete map and named query. -/
theorem namedQuery_rename_spec_witness :
    (replaceNamesNamedQuery NameMap.empty
        { name := "dashboards/abc/datasets/def_x",
          query := { dataset_name := "orders",
                     fields := [{ name := "total", expression := "t" },
                                { name := "count", expression := "c" }],
                     disaggregated := false } }).1.name = "orders_total_count" := by
  have h := (namedQuery_rename_spec NameMap.empty
      { name := "dashboards/abc/datasets/def_x",
        query := { dataset_name := "orders",
                   fields := [{ name := "total", expression := "t" },
                              { name := "count", expression := "c" }],
                   disaggregated := false } }).1 (by decide)
  rw [h.1]
  decide

/-- C4: formatting never raises — the embedding is a total function on the
SQL text given a parse oracle; when the external parser fails, the original
text is returned completely unchanged. -/
theorem formatQuery_fallback {σ : Type} (parse : String → Except Unit (List (Option σ)))
    (gen : σ → String) (q : String) (h : parse q = .error ()) :
    formatQuery parse gen q = q := by
  simp [formatQuery, h]

/-- A parse oracle that fails exactly on the unparsable example query. -/
def failingParse : String → Except Unit (List (Option Unit)) :=
  fun s => if s = "SELECT COUNT(* AS invalid_column" then .error () else .ok []

/-- Closed instance of `formatQuery_fallback`: the unparsable query
`SELECT COUNT(* AS invalid_column` is preserved verbatim. -/
theorem formatQuery_fallback_witness :
    failingParse "SELECT COUNT(* AS invalid_column" = .error () ∧
    formatQuery failingParse (fun _ => "") "SELECT COUNT(* AS invalid_column" =
      "SELECT COUNT(* AS invalid_column" :=
  ⟨by decide, formatQuery_fallback failingParse (fun _ => "") _ (by decide)⟩

/-- C5: calling deploy with both `display_name` and `dashboard_id`, or with
neither, fails with the invalid-argument error and produces no remote call;
with exactly one of the two it succeeds with the corresponding create/update
call. -/
theorem deployDashboard_validates (serialize : Dashboard → String) (d : Dashboard) :
    (∀ dn di : Option String,
      (dn = none ∧ di = none) ∨ (dn ≠ none ∧ di ≠ none) →
      deployDashboard serialize d dn di = .error "Give either display_name or dashboard_id.") ∧
    (∀ dn : String,
      deployDashboard serialize d (some dn) none = .ok (.create dn (serialize d))) ∧
    (∀ di : String,
      deployDashboard serialize d none (some di) = .ok (.update di (serialize d))) := by
  refine ⟨fun dn di h => ?_, fun dn => rfl, fun di => rfl⟩
  rcases h with ⟨h1, h2⟩ | ⟨h1, h2⟩
  · subst h1; subst h2; rfl
  · cases dn with
    | none => exact absurd rfl h1
    | some a =>
      cases di with
      | none => exact absurd rfl h2
      | some b => rfl

/-- Closed instance of `deployDashboard_validates`: deploying with neither
identifier fails with the invalid-argument error. -/
theorem deployDashboard_validates_witness :
    deployDashboard (fun _ => "{}") { datasets := [], pages := [] } none none =
      .error "Give either display_name or dashboard_id." :=
  (deployDashboard_validates (fun _ => "{}") { datasets := [], pages := [] }).1
    none none (Or.inl ⟨rfl, rfl⟩)

end Lsql
